import Mathlib

/-!
A shallow embedding of `run.py` (HBS case scraper / form submitter).

The script has two cores:
* `extract_case_data` — fetch a catalog page, parse five elements out of it,
  with a bounded retry loop (`max_retries` attempts, fixed `delay` sleep
  after every failed attempt) and regex field parsing;
* the main loop — for each configured link: skip it when it is already in
  `submitted_links` (loaded from `output.csv` at start-up), otherwise extract
  metadata, drive the request form in the browser, and on seeing the
  confirmation phrase in the resulting page append the record to the
  in-memory DataFrame and rewrite `output.csv` from it.

External collaborators (HTTP fetch, BeautifulSoup parse, Selenium driving)
are modelled as oracles: a fetch oracle maps an attempt number to either an
exception or a parsed page, and a drive oracle maps a link to either an
exception or the final `driver.page_source` text.

Modelling conventions:
* Python exceptions are explicit alternatives of the oracle result types;
  the translated functions are total.
* `re` patterns are translated character by character over `List Char`;
  `\d`, `[A-Za-z]` and `\w` are modelled as ASCII digit / ASCII letter /
  ASCII alphanumeric-or-underscore (the script's inputs are ASCII).
* A BeautifulSoup `Tag` is modelled by its `.text`; `select_one` misses
  are `none`, and `if tag:` is false only for such a miss — bs4's
  `Tag.__bool__` returns `True` unconditionally, so a present element is
  always truthy, whatever its contents.
* The pandas DataFrame and the CSV file are modelled as lists of rows.
-/

namespace HbsRun

/-- Python `str.strip()` whitespace class (ASCII part). -/
def isPySpace (c : Char) : Bool :=
  c == ' ' || c == '\t' || c == '\n' || c == '\r' || c == '\x0b' || c == '\x0c'

/-- `str.strip()` on a character list: drop whitespace from both ends. -/
def stripChars (s : List Char) : List Char :=
  ((s.dropWhile isPySpace).reverse.dropWhile isPySpace).reverse

/-- Python `str.strip()`. -/
def pyStrip (s : String) : String :=
  String.mk (stripChars s.data)

/-- `p` is an initial segment of `s`. -/
def listStartsWith : List Char → List Char → Bool
  | [], _ => true
  | _ :: _, [] => false
  | p :: ps, c :: cs => p == c && listStartsWith ps cs

/-- Python `needle in haystack` on strings (substring containment). -/
def containsSub (needle : List Char) : List Char → Bool
  | [] => needle.isEmpty
  | c :: rest => listStartsWith needle (c :: rest) || containsSub needle rest

/-- Python `\w` (ASCII fragment): letters, digits, underscore. -/
def isWordChar (c : Char) : Bool :=
  c.isAlphanum || c == '_'

/-- Match `\d{3}-\d{3}\b` against the head of the list, returning the seven
matched characters.  The trailing `\b` holds when the next character is
absent or is not a word character (the last matched character is a digit). -/
def caseNumAt : List Char → Option (List Char)
  | d1 :: d2 :: d3 :: hy :: d4 :: d5 :: d6 :: rest =>
    if d1.isDigit && d2.isDigit && d3.isDigit && hy == '-'
        && d4.isDigit && d5.isDigit && d6.isDigit
        && (match rest with | [] => true | r :: _ => !isWordChar r) then
      some [d1, d2, d3, hy, d4, d5, d6]
    else
      none
  | _ => none

/-- `re.search(r"\b(\d{3}-\d{3})\b", s)`: scan left to right; at each
position the leading `\b` holds when the previous character (`prev`) is
absent or is not a word character (the first matched character is a digit). -/
def searchCaseNum : Option Char → List Char → Option (List Char)
  | _, [] => none
  | prev, c :: rest =>
    match (if (match prev with | none => true | some p => !isWordChar p) then
             caseNumAt (c :: rest)
           else none) with
    | some m => some m
    | none => searchCaseNum (some c) rest

/-- The `case_number` computation of `extract_case_data`, applied to the
citation element's text: first match of `\b(\d{3}-\d{3})\b`, else `""`. -/
def caseNumberOf (citationText : String) : String :=
  match searchCaseNum none citationText.data with
  | some m => String.mk m
  | none => ""

/-- `re.match(r"([A-Za-z]+ \d{4})", s)`: an anchored match of one-or-more
ASCII letters, a space, and four digits; returns the matched characters.
No backtracking is needed: the greedy `[A-Za-z]+` must stop exactly at the
first non-letter, which then has to be the literal space. -/
def matchOriginal (s : List Char) : Option (List Char) :=
  match s.takeWhile Char.isAlpha, s.dropWhile Char.isAlpha with
  | [], _ => none
  | al, sp :: y1 :: y2 :: y3 :: y4 :: _ =>
    if sp == ' ' && y1.isDigit && y2.isDigit && y3.isDigit && y4.isDigit then
      some (al ++ sp :: [y1, y2, y3, y4])
    else
      none
  | _, _ => none

/-- Match `\(Revised ([A-Za-z]+ \d{4})\)` against the head of the list,
returning group 1 (the month word, a space, four digits). -/
def revisedAt (s : List Char) : Option (List Char) :=
  if listStartsWith "(Revised ".data s then
    match (s.drop 9).takeWhile Char.isAlpha, (s.drop 9).dropWhile Char.isAlpha with
    | [], _ => none
    | al, sp :: y1 :: y2 :: y3 :: y4 :: cp :: _ =>
      if sp == ' ' && y1.isDigit && y2.isDigit && y3.isDigit && y4.isDigit
          && cp == ')' then
        some (al ++ sp :: [y1, y2, y3, y4])
      else
        none
    | _, _ => none
  else
    none

/-- `re.search(r"\(Revised ([A-Za-z]+ \d{4})\)", s)`: leftmost match. -/
def searchRevised : List Char → Option (List Char)
  | [] => none
  | c :: rest =>
    match revisedAt (c :: rest) with
    | some m => some m
    | none => searchRevised rest

/-- Group text of an optional match, `""` when there is no match. -/
def groupStr : Option (List Char) → String
  | some m => String.mk m
  | none => ""

/-- A BeautifulSoup element, by its `.text`. -/
structure Element where
  text : String
deriving Repr, DecidableEq

/-- `if tag:` on a `select_one` result: false only when `select_one`
returned `None` — bs4's `Tag.__bool__` returns `True` unconditionally, so
a present element is truthy even with no contents. -/
def truthy : Option Element → Bool
  | none => false
  | some _ => true

/-- `.text` of an optional element (only consulted under `truthy`). -/
def textOf : Option Element → String
  | none => ""
  | some e => e.text

/-- The five `select_one` results `extract_case_data` reads from a page. -/
structure Page where
  hbs_title : Option Element  -- soup.select_one("h1.beta")
  date_text : Option Element  -- soup.select_one("ul.linear.mu-uc.datesource li")
  abstract : Option Element   -- soup.select_one("div.description-content")
  author : Option Element     -- soup.select_one("h4.kappa")
  citation : Option Element   -- soup.select_one("div.mu.light.citation.add-underline")
deriving Repr, DecidableEq

/-- The dict returned by `extract_case_data` (keys "URL", "Case Number",
"Title", "Date", "Updated", "Abstract", "Main Author"). -/
structure CaseRecord where
  url : String
  case_number : String
  title : String
  date : String
  updated : String
  abstract : String
  main_author : String
deriving Repr, DecidableEq

/-- The body of `extract_case_data`'s `try` block after the page is parsed:
`none` is the `raise ValueError("Page didn't load properly")` when
`select_one("h1.beta")` found no title element, otherwise the returned
dict. -/
def parsePage (url : String) (soup : Page) : Option CaseRecord :=
  if !truthy soup.hbs_title then
    none
  else
    let case_number :=
      if truthy soup.citation then caseNumberOf (textOf soup.citation) else ""
    let dates :=
      if truthy soup.date_text then
        let date_str := pyStrip (textOf soup.date_text)
        (groupStr (matchOriginal date_str.data), groupStr (searchRevised date_str.data))
      else
        ("", "")
    some
      { url := url
        case_number := case_number
        title := pyStrip (textOf soup.hbs_title)
        date := dates.1
        updated := dates.2
        abstract := if truthy soup.abstract then pyStrip (textOf soup.abstract) else ""
        main_author := if truthy soup.author then pyStrip (textOf soup.author) else "" }

/-- Outcome of one `requests.get` + `BeautifulSoup` cycle: an exception
(from fetch or parse) or a parsed page. -/
inductive Fetched where
  | exn : Fetched
  | page : Page → Fetched
deriving Repr, DecidableEq

/-- Observable events of one `extract_case_data` call. -/
inductive XEvent where
  | attempt : Nat → XEvent   -- a fetch/parse cycle starts (1-based index)
  | logOk : String → XEvent  -- print("[OK] Scraped: ...")
  | logRetry : Nat → XEvent  -- print("[Retry a/m] Failed to load ...")
  | sleep : Nat → XEvent     -- time.sleep(delay)
  | logFail : XEvent         -- print("[FAIL] Skipped after m attempts: ...")
deriving Repr, DecidableEq

/-- The `for attempt in range(1, max_retries + 1)` loop of
`extract_case_data`: `fuel` is the number of remaining attempts and
`attempt` the 1-based index of the next one.  Any exception (fetch, parse,
or the missing-title `ValueError`) is caught, logged, slept on, and the
loop continues; falling off the loop logs a failure and returns `None`. -/
def extractLoop (fetch : Nat → Fetched) (url : String) (delay : Nat) :
    Nat → Nat → Option CaseRecord × List XEvent
  | 0, _ => (none, [XEvent.logFail])
  | fuel + 1, attempt =>
    match (match fetch attempt with
           | Fetched.exn => none
           | Fetched.page p => parsePage url p) with
    | some md => (some md, [XEvent.attempt attempt, XEvent.logOk md.title])
    | none =>
      let rest := extractLoop fetch url delay fuel (attempt + 1)
      (rest.1, XEvent.attempt attempt :: XEvent.logRetry attempt :: XEvent.sleep delay :: rest.2)

/-- `extract_case_data(url, max_retries, delay)` under a fetch oracle. -/
def extract_case_data (fetch : Nat → Fetched) (url : String)
    (max_retries : Nat) (delay : Nat) : Option CaseRecord × List XEvent :=
  extractLoop fetch url delay max_retries 1

/-- Attempt `n` fails: the fetch/parse raises, or the page has no usable
title element. -/
def attemptFails (fetch : Nat → Fetched) (url : String) (n : Nat) : Bool :=
  match fetch n with
  | Fetched.exn => true
  | Fetched.page p => (parsePage url p).isNone

/-- Number of fetch/parse cycles recorded in an extractor trace. -/
def attemptsOf (evs : List XEvent) : Nat :=
  (evs.filter (fun e => match e with | XEvent.attempt _ => true | _ => false)).length

/-- Number of `time.sleep(d)` calls recorded in an extractor trace. -/
def sleepsOf (d : Nat) (evs : List XEvent) : Nat :=
  (evs.filter (fun e => match e with | XEvent.sleep x => x == d | _ => false)).length

/-- One row of `df_existing` / `output.csv`: the record's fields plus the
`Status` column. -/
structure Row where
  record : CaseRecord
  status : String
deriving Repr, DecidableEq

/-- Outcome of driving the request form for one link inside the `try`
block: an exception at any point (navigation, waits, field entry, clicks),
or completion with the final `driver.page_source` text. -/
inductive DriveResult where
  | exn : DriveResult
  | ok : String → DriveResult
deriving Repr, DecidableEq

/-- The external world one run interacts with: a fetch oracle per link and
attempt number, and a form-driving oracle per link. -/
structure Env where
  fetch : String → Nat → Fetched
  drive : String → DriveResult

/-- Observable events of the main loop. -/
inductive OEvent where
  | skip : String → OEvent            -- print("[SKIP] Already submitted: ...")
  | extractCall : String → OEvent     -- extract_case_data(link) is invoked
  | extractFailSkip : String → OEvent -- `if not metadata: continue`
  | formDrive : String → OEvent       -- the form-driving try block starts
  | submitted : String → OEvent       -- print("✅ Submitted: <title>")
  | warn : String → OEvent            -- print("⚠️ Submission might have failed for: <title>")
  | errorLog : String → OEvent        -- print("❌ Error on <case number>: ...")
  | resetContext : OEvent             -- driver.switch_to.default_content()
deriving Repr, DecidableEq

/-- In-memory DataFrame (`df_existing`) and the rows durably present in
`output.csv`. -/
structure StoreState where
  df_existing : List Row
  fileRows : List Row
deriving Repr, DecidableEq

/-- The confirmation phrase checked against `driver.page_source`. -/
def confirmPhrase : String := "Thank you for submitting your request"

/-- One iteration of the main `for link in CASE_LINKS_TO_DOWNLOAD` loop.
`submitted_links` is the set loaded at start-up; the loop never adds to it.
On a confirmed submission the record (with `Status = "Requested"`) is
appended to `df_existing` and the whole DataFrame is written back to
`output.csv` (`to_csv` rewrites the file).  Exceptions in the try block are
caught, logged with the case number, and followed by
`switch_to.default_content()`; the loop then continues. -/
def processLink (env : Env) (submitted_links : List String) (st : StoreState)
    (link : String) : StoreState × List OEvent :=
  if link ∈ submitted_links then
    (st, [OEvent.skip link])
  else
    match (extract_case_data (env.fetch link) link 3 2).1 with
    | none => (st, [OEvent.extractCall link, OEvent.extractFailSkip link])
    | some md =>
      match env.drive link with
      | DriveResult.exn =>
        (st, [OEvent.extractCall link, OEvent.formDrive link,
              OEvent.errorLog md.case_number, OEvent.resetContext])
      | DriveResult.ok page_source =>
        if containsSub confirmPhrase.data page_source.data then
          let mem := st.df_existing ++ [⟨md, "Requested"⟩]
          (⟨mem, mem⟩,
           [OEvent.extractCall link, OEvent.formDrive link,
            OEvent.submitted md.title, OEvent.resetContext])
        else
          (st, [OEvent.extractCall link, OEvent.formDrive link,
                OEvent.warn md.title, OEvent.resetContext])

/-- The whole main loop over the remaining links. -/
def runBatch (env : Env) (submitted_links : List String) :
    StoreState → List String → StoreState × List OEvent
  | st, [] => (st, [])
  | st, link :: rest =>
    let first := processLink env submitted_links st link
    let later := runBatch env submitted_links first.1 rest
    (later.1, first.2 ++ later.2)

/-- `submitted_links = set(df_existing["URL"].tolist())` (membership view). -/
def submittedLinksOf (loaded : List Row) : List String :=
  loaded.map (fun r => r.record.url)

/-- The script run: `df_existing` is loaded from `output.csv` (so the file
and the DataFrame start equal — both empty when the file is absent), the
submitted set is its `URL` column, then the main loop processes `links`. -/
def runScript (env : Env) (loaded : List Row) (links : List String) :
    StoreState × List OEvent :=
  runBatch env (submittedLinksOf loaded) ⟨loaded, loaded⟩ links

/-- The row that processing `link` appends to the store, when its
submission gets confirmed; `none` when the link is skipped, extraction
fails, driving raises, or the confirmation phrase is absent. -/
def confirmedRowOf (env : Env) (submitted_links : List String)
    (link : String) : Option Row :=
  if link ∈ submitted_links then none
  else
    match (extract_case_data (env.fetch link) link 3 2).1 with
    | none => none
    | some md =>
      match env.drive link with
      | DriveResult.exn => none
      | DriveResult.ok page_source =>
        if containsSub confirmPhrase.data page_source.data then
          some ⟨md, "Requested"⟩
        else
          none

/-- All rows a run over `links` appends, in processing order. -/
def confirmedRows (env : Env) (submitted_links : List String)
    (links : List String) : List Row :=
  links.filterMap (confirmedRowOf env submitted_links)

/-- Number of rows for `url` carrying `Status = "Requested"`. -/
def countRequested (rows : List Row) (url : String) : Nat :=
  (rows.filter (fun r => r.record.url == url && r.status == "Requested")).length

/-! ### Spec-side definitions

These follow the spec's words rather than the source, for the refinement
comparisons: the first whole-word `\d{3}-\d{3}` match by index, and the
leading `<Month-name> <4-digit-year>` reading of `originalDate`. -/

/-- The character at index `j` is an ASCII digit. -/
def digitAt (s : List Char) (j : Nat) : Bool :=
  match s.get? j with
  | some c => c.isDigit
  | none => false

/-- The character at index `j` is a word character. -/
def wordAt (s : List Char) (j : Nat) : Bool :=
  match s.get? j with
  | some c => isWordChar c
  | none => false

/-- Spec reading: the pattern `\d{3}-\d{3}` occurs as a whole word at
index `i` of `s` (the preceding character, if any, is not a word character;
`caseNumAt` checks the seven pattern characters and the trailing
boundary). -/
def caseMatchAt (s : List Char) (i : Nat) : Bool :=
  (i == 0 || !wordAt s (i - 1)) && (caseNumAt (s.drop i)).isSome

/-- Spec reading of `caseNumber`: the text of the first (leftmost)
whole-word match of `\d{3}-\d{3}`, the empty string when there is none. -/
def specCaseNumber (s : List Char) : String :=
  match (List.range s.length).find? (caseMatchAt s) with
  | some i => String.mk ((s.drop i).take 7)
  | none => ""

/-- The English month names. -/
def monthNames : List String :=
  ["January", "February", "March", "April", "May", "June",
   "July", "August", "September", "October", "November", "December"]

/-- Spec reading of `originalDate`: the leading substring
`<Month-name> <4-digit-year>` at the start of the text (a month name, a
space, four digits), the empty string when there is none. -/
def specOriginalDate (s : List Char) : String :=
  match monthNames.find? (fun m =>
      listStartsWith (m.data ++ [' ']) s
      && decide (4 ≤ (s.drop (m.length + 1)).length)
      && ((s.drop (m.length + 1)).take 4).all Char.isDigit) with
  | some m => String.mk (m.data ++ ' ' :: (s.drop (m.length + 1)).take 4)
  | none => ""

/-- A non-empty run of ASCII letters (`[A-Za-z]+`). -/
def alphaWord (a : List Char) : Bool :=
  !a.isEmpty && a.all Char.isAlpha

/-- Exactly four ASCII digits (`\d{4}`). -/
def yearDigits (y : List Char) : Bool :=
  y.length == 4 && y.all Char.isDigit

/-! ### Lemmas about the extractor -/

theorem parsePage_none (url : String) (soup : Page)
    (h : truthy soup.hbs_title = false) : parsePage url soup = none := by
  simp [parsePage, h]

theorem parsePage_some (url : String) (soup : Page)
    (h : truthy soup.hbs_title = true) :
    parsePage url soup = some
      { url := url
        case_number :=
          if truthy soup.citation then caseNumberOf (textOf soup.citation) else ""
        title := pyStrip (textOf soup.hbs_title)
        date :=
          if truthy soup.date_text then
            groupStr (matchOriginal (pyStrip (textOf soup.date_text)).data)
          else ""
        updated :=
          if truthy soup.date_text then
            groupStr (searchRevised (pyStrip (textOf soup.date_text)).data)
          else ""
        abstract :=
          if truthy soup.abstract then pyStrip (textOf soup.abstract) else ""
        main_author :=
          if truthy soup.author then pyStrip (textOf soup.author) else "" } := by
  simp only [parsePage, h, Bool.not_true, Bool.false_eq_true, if_false,
    Option.some.injEq]
  by_cases hd : truthy soup.date_text = true <;>
    simp [hd]

theorem parsePage_url (url : String) (soup : Page) (md : CaseRecord)
    (h : parsePage url soup = some md) : md.url = url := by
  cases ht : truthy soup.hbs_title with
  | false => rw [parsePage_none url soup ht] at h; exact absurd h (by simp)
  | true =>
    rw [parsePage_some url soup ht] at h
    simp only [Option.some.injEq] at h
    rw [← h]

theorem parsePage_title (url : String) (soup : Page) (md : CaseRecord)
    (h : parsePage url soup = some md) :
    md.title = pyStrip (textOf soup.hbs_title) := by
  cases ht : truthy soup.hbs_title with
  | false => rw [parsePage_none url soup ht] at h; exact absurd h (by simp)
  | true =>
    rw [parsePage_some url soup ht] at h
    simp only [Option.some.injEq] at h
    rw [← h]

theorem attemptFails_iff (fetch : Nat → Fetched) (url : String) (n : Nat) :
    attemptFails fetch url n = true ↔
      (match fetch n with
       | Fetched.exn => none
       | Fetched.page p => parsePage url p) = none := by
  unfold attemptFails
  cases fetch n with
  | exn => simp
  | page p => simp [Option.isNone_iff_eq_none]

theorem extractLoop_attempts_le (fetch : Nat → Fetched) (url : String)
    (d : Nat) : ∀ fuel a, attemptsOf (extractLoop fetch url d fuel a).2 ≤ fuel
  | 0, a => by simp [extractLoop, attemptsOf]
  | fuel + 1, a => by
    have ih := extractLoop_attempts_le fetch url d fuel (a + 1)
    unfold extractLoop
    cases hf : (match fetch a with
                | Fetched.exn => none
                | Fetched.page p => parsePage url p) with
    | some md => simp [attemptsOf, List.filter]
    | none =>
      simp only [attemptsOf, List.filter, List.length_cons] at ih ⊢
      omega

theorem extractLoop_allfail (fetch : Nat → Fetched) (url : String) (d : Nat) :
    ∀ fuel a, (∀ n, a ≤ n → n < a + fuel → attemptFails fetch url n = true) →
      (extractLoop fetch url d fuel a).1 = none ∧
      attemptsOf (extractLoop fetch url d fuel a).2 = fuel ∧
      sleepsOf d (extractLoop fetch url d fuel a).2 = fuel ∧
      (1 ≤ fuel →
        ∃ pre, (extractLoop fetch url d fuel a).2
          = pre ++ [XEvent.sleep d, XEvent.logFail])
  | 0, a, _ => by simp [extractLoop, attemptsOf, sleepsOf]
  | fuel + 1, a, hall => by
    have ha : attemptFails fetch url a = true := hall a (le_refl a) (by omega)
    rw [attemptFails_iff] at ha
    have ih := extractLoop_allfail fetch url d fuel (a + 1)
      (fun n h1 h2 => hall n (by omega) (by omega))
    unfold extractLoop
    rw [ha]
    refine ⟨ih.1, ?_, ?_, ?_⟩
    · simp only [attemptsOf, List.filter, List.length_cons] at ih ⊢
      omega
    · simp only [sleepsOf, List.filter, beq_self_eq_true, List.length_cons] at ih ⊢
      omega
    · intro _
      rcases Nat.eq_zero_or_pos fuel with hz | hpos
      · subst hz
        refine ⟨[XEvent.attempt a, XEvent.logRetry a], ?_⟩
        simp [extractLoop]
      · obtain ⟨pre, hpre⟩ := ih.2.2.2 hpos
        refine ⟨XEvent.attempt a :: XEvent.logRetry a :: XEvent.sleep d :: pre, ?_⟩
        simp [hpre]

theorem extractLoop_some_iff (fetch : Nat → Fetched) (url : String) (d : Nat) :
    ∀ fuel a, (extractLoop fetch url d fuel a).1.isSome = true ↔
      ∃ n, a ≤ n ∧ n < a + fuel ∧ attemptFails fetch url n = false
  | 0, a => by
    simp only [extractLoop, Option.isSome_none]
    constructor
    · intro h; exact absurd h (by simp)
    · rintro ⟨n, h1, h2, _⟩; omega
  | fuel + 1, a => by
    have ih := extractLoop_some_iff fetch url d fuel (a + 1)
    unfold extractLoop
    cases hf : (match fetch a with
                | Fetched.exn => none
                | Fetched.page p => parsePage url p) with
    | some md =>
      simp only [Option.isSome_some, true_iff]
      refine ⟨a, le_refl a, by omega, ?_⟩
      rw [Bool.eq_false_iff]
      intro hcontra
      rw [attemptFails_iff] at hcontra
      rw [hcontra] at hf
      exact absurd hf (by simp)
    | none =>
      simp only []
      rw [ih]
      constructor
      · rintro ⟨n, h1, h2, h3⟩; exact ⟨n, by omega, by omega, h3⟩
      · rintro ⟨n, h1, h2, h3⟩
        refine ⟨n, ?_, by omega, h3⟩
        rcases Nat.eq_or_lt_of_le h1 with heq | hlt
        · exfalso
          have hT : attemptFails fetch url a = true :=
            (attemptFails_iff fetch url a).mpr hf
          rw [heq] at hT
          rw [hT] at h3
          exact absurd h3 (by simp)
        · omega

theorem extractLoop_url (fetch : Nat → Fetched) (url : String) (d : Nat) :
    ∀ fuel a md, (extractLoop fetch url d fuel a).1 = some md → md.url = url
  | 0, a, md => by simp [extractLoop]
  | fuel + 1, a, md => by
    have ih := extractLoop_url fetch url d fuel (a + 1) md
    unfold extractLoop
    cases hf : (match fetch a with
                | Fetched.exn => none
                | Fetched.page p => parsePage url p) with
    | some md0 =>
      intro h
      have hmd : md0 = md := Option.some.inj h
      cases hfn : fetch a with
      | exn => rw [hfn] at hf; exact absurd hf (by simp)
      | page p =>
        rw [hfn] at hf
        rw [← hmd]
        exact parsePage_url url p md0 hf
    | none => exact ih

theorem extract_url (fetch : Nat → Fetched) (url : String) (mr d : Nat)
    (md : CaseRecord) (h : (extract_case_data fetch url mr d).1 = some md) :
    md.url = url :=
  extractLoop_url fetch url d mr 1 md h

/-! ### Claims C4 and C9: the retry loop -/

/-- C4: the Extractor performs at most `max_retries` fetch/parse attempts
per URL; an exception thrown during fetch or parse and the missing-title
condition are caught and counted as failed attempts rather than
propagated (the call succeeds exactly when one of attempts `1..max_retries`
succeeds, so an early failure neither aborts nor escapes the loop); and
when every attempt fails the call returns the terminal failure value
`none` — an ordinary return value, not an exception — after exactly
`max_retries` attempts, producing no record. -/
theorem C4_retry_bound (fetch : Nat → Fetched) (url : String) (mr d : Nat) :
    attemptsOf (extract_case_data fetch url mr d).2 ≤ mr ∧
    ((extract_case_data fetch url mr d).1.isSome = true ↔
      ∃ n, 1 ≤ n ∧ n < 1 + mr ∧ attemptFails fetch url n = false) ∧
    ((∀ n, 1 ≤ n → n < 1 + mr → attemptFails fetch url n = true) →
      (extract_case_data fetch url mr d).1 = none ∧
      attemptsOf (extract_case_data fetch url mr d).2 = mr) := by
  refine ⟨extractLoop_attempts_le fetch url d mr 1,
    extractLoop_some_iff fetch url d mr 1, ?_⟩
  intro hall
  have h := extractLoop_allfail fetch url d mr 1 hall
  exact ⟨h.1, h.2.1⟩

/-- Witness for C4: an always-raising fetch oracle with the script's
`max_retries = 3`, `delay = 2` yields `None` after exactly 3 attempts. -/
theorem C4_retry_bound_witness :
    (extract_case_data (fun _ => Fetched.exn) "u" 3 2).1 = none ∧
    attemptsOf (extract_case_data (fun _ => Fetched.exn) "u" 3 2).2 = 3 :=
  (C4_retry_bound (fun _ => Fetched.exn) "u" 3 2).2.2 (fun _ _ _ => rfl)

/-- C9: when every attempt fails, the Extractor sleeps the fixed `delay`
after every failed attempt including the final one: exactly `max_retries`
`time.sleep(delay)` calls occur, and the trace ends with a sleep directly
followed by the terminal-failure log, i.e. the last sleep happens after
the last attempt, when no further retry will be made, before `None` is
returned. -/
theorem C9_sleep_after_failures (fetch : Nat → Fetched) (url : String)
    (mr d : Nat) (hmr : 1 ≤ mr)
    (hall : ∀ n, 1 ≤ n → n < 1 + mr → attemptFails fetch url n = true) :
    sleepsOf d (extract_case_data fetch url mr d).2 = mr ∧
    (extract_case_data fetch url mr d).1 = none ∧
    ∃ pre, (extract_case_data fetch url mr d).2
      = pre ++ [XEvent.sleep d, XEvent.logFail] := by
  have h := extractLoop_allfail fetch url d mr 1 hall
  exact ⟨h.2.2.1, h.1, h.2.2.2 hmr⟩

/-- Witness for C9: an always-raising fetch oracle with `max_retries = 3`,
`delay = 2` sleeps exactly 3 times and ends the trace with sleep-then-fail. -/
theorem C9_sleep_after_failures_witness :
    sleepsOf 2 (extract_case_data (fun _ => Fetched.exn) "u" 3 2).2 = 3 ∧
    ∃ pre, (extract_case_data (fun _ => Fetched.exn) "u" 3 2).2
      = pre ++ [XEvent.sleep 2, XEvent.logFail] := by
  have h := C9_sleep_after_failures (fun _ => Fetched.exn) "u" 3 2
    (by decide) (fun _ _ _ => rfl)
  exact ⟨h.1, h.2.2⟩

/-! ### Lemmas about the main loop -/

/-- The log events one loop iteration emits; they do not depend on the
store state. -/
def linkEvents (env : Env) (submitted_links : List String)
    (link : String) : List OEvent :=
  if link ∈ submitted_links then
    [OEvent.skip link]
  else
    match (extract_case_data (env.fetch link) link 3 2).1 with
    | none => [OEvent.extractCall link, OEvent.extractFailSkip link]
    | some md =>
      match env.drive link with
      | DriveResult.exn =>
        [OEvent.extractCall link, OEvent.formDrive link,
         OEvent.errorLog md.case_number, OEvent.resetContext]
      | DriveResult.ok page_source =>
        if containsSub confirmPhrase.data page_source.data then
          [OEvent.extractCall link, OEvent.formDrive link,
           OEvent.submitted md.title, OEvent.resetContext]
        else
          [OEvent.extractCall link, OEvent.formDrive link,
           OEvent.warn md.title, OEvent.resetContext]

/-- The store state after one loop iteration: unchanged, unless the
submission was confirmed, in which case the row is appended to the
DataFrame and the file is rewritten from the whole DataFrame. -/
def stepStore (env : Env) (submitted_links : List String) (st : StoreState)
    (link : String) : StoreState :=
  match confirmedRowOf env submitted_links link with
  | none => st
  | some row => ⟨st.df_existing ++ [row], st.df_existing ++ [row]⟩

theorem processLink_eq (env : Env) (sub : List String) (st : StoreState)
    (link : String) :
    processLink env sub st link
      = (stepStore env sub st link, linkEvents env sub link) := by
  by_cases hs : link ∈ sub
  · simp [processLink, stepStore, linkEvents, confirmedRowOf, hs]
  · cases hx : (extract_case_data (env.fetch link) link 3 2).1 with
    | none => simp [processLink, stepStore, linkEvents, confirmedRowOf, hs, hx]
    | some md =>
      cases hd : env.drive link with
      | exn => simp [processLink, stepStore, linkEvents, confirmedRowOf, hs, hx, hd]
      | ok ps =>
        cases hc : containsSub confirmPhrase.data ps.data <;>
          simp [processLink, stepStore, linkEvents, confirmedRowOf, hs, hx, hd, hc]

theorem runBatch_eq (env : Env) (sub : List String) :
    ∀ (links : List String) (st : StoreState),
      runBatch env sub st links
        = (links.foldl (stepStore env sub) st, links.flatMap (linkEvents env sub))
  | [], st => by simp [runBatch]
  | link :: rest, st => by
    have ih := runBatch_eq env sub rest (stepStore env sub st link)
    simp only [runBatch, processLink_eq, ih, List.foldl_cons, List.flatMap_cons]

theorem confirmedRowOf_some (env : Env) (sub : List String) (link : String)
    (row : Row) (h : confirmedRowOf env sub link = some row) :
    link ∉ sub ∧ row.record.url = link ∧ row.status = "Requested" := by
  by_cases hs : link ∈ sub
  · simp [confirmedRowOf, hs] at h
  · refine ⟨hs, ?_⟩
    cases hx : (extract_case_data (env.fetch link) link 3 2).1 with
    | none => simp [confirmedRowOf, hs, hx] at h
    | some md =>
      cases hd : env.drive link with
      | exn => simp [confirmedRowOf, hs, hx, hd] at h
      | ok ps =>
        cases hc : containsSub confirmPhrase.data ps.data with
        | false => simp [confirmedRowOf, hs, hx, hd, hc] at h
        | true =>
          simp only [confirmedRowOf, hs, hx, hd, hc, if_true, if_false,
            ite_true, Option.some.injEq] at h
          rw [← h]
          exact ⟨extract_url (env.fetch link) link 3 2 md hx, rfl⟩

/-- Folding the store-step over a batch appends exactly the confirmed rows
to the DataFrame, and leaves the file equal to the DataFrame as soon as it
was (it is at start-up, when both are the loaded CSV rows). -/
theorem foldl_stepStore (env : Env) (sub : List String) :
    ∀ (links : List String) (mem : List Row),
      links.foldl (stepStore env sub) ⟨mem, mem⟩
        = ⟨mem ++ confirmedRows env sub links, mem ++ confirmedRows env sub links⟩
  | [], mem => by simp [confirmedRows]
  | link :: rest, mem => by
    simp only [List.foldl_cons, confirmedRows, List.filterMap_cons]
    cases hr : confirmedRowOf env sub link with
    | none =>
      have ih := foldl_stepStore env sub rest mem
      simp only [stepStore, hr]
      exact ih
    | some row =>
      have ih := foldl_stepStore env sub rest (mem ++ [row])
      simp only [stepStore, hr]
      rw [ih]
      simp [confirmedRows]

theorem runScript_store (env : Env) (loaded : List Row) (links : List String) :
    (runScript env loaded links).1
      = ⟨loaded ++ confirmedRows env (submittedLinksOf loaded) links,
         loaded ++ confirmedRows env (submittedLinksOf loaded) links⟩ := by
  unfold runScript
  rw [runBatch_eq]
  simp only [foldl_stepStore]

theorem runScript_events (env : Env) (loaded : List Row) (links : List String) :
    (runScript env loaded links).2
      = links.flatMap (linkEvents env (submittedLinksOf loaded)) := by
  unfold runScript
  rw [runBatch_eq]

theorem linkEvents_extractCall (env : Env) (sub : List String) (l u : String)
    (h : OEvent.extractCall u ∈ linkEvents env sub l) : l = u ∧ l ∉ sub := by
  by_cases hs : l ∈ sub
  · simp [linkEvents, hs] at h
  · refine ⟨?_, hs⟩
    unfold linkEvents at h
    rw [if_neg hs] at h
    cases hx : (extract_case_data (env.fetch l) l 3 2).1 with
    | none => rw [hx] at h; simp at h; exact h.symm
    | some md =>
      rw [hx] at h
      cases hd : env.drive l with
      | exn => rw [hd] at h; simp at h; exact h.symm
      | ok ps =>
        rw [hd] at h
        cases hc : containsSub confirmPhrase.data ps.data <;>
          · simp [hc] at h; exact h.symm

theorem linkEvents_formDrive (env : Env) (sub : List String) (l u : String)
    (h : OEvent.formDrive u ∈ linkEvents env sub l) : l = u ∧ l ∉ sub := by
  by_cases hs : l ∈ sub
  · simp [linkEvents, hs] at h
  · refine ⟨?_, hs⟩
    unfold linkEvents at h
    rw [if_neg hs] at h
    cases hx : (extract_case_data (env.fetch l) l 3 2).1 with
    | none => rw [hx] at h; simp at h
    | some md =>
      rw [hx] at h
      cases hd : env.drive l with
      | exn => rw [hd] at h; simp at h; exact h.symm
      | ok ps =>
        rw [hd] at h
        cases hc : containsSub confirmPhrase.data ps.data <;>
          · simp [hc] at h; exact h.symm

theorem countRequested_append (a b : List Row) (u : String) :
    countRequested (a ++ b) u = countRequested a u + countRequested b u := by
  simp [countRequested, List.filter_append]

theorem countRequested_cons (row : Row) (rest : List Row) (u : String) :
    countRequested (row :: rest) u
      = (if row.record.url == u && row.status == "Requested" then 1 else 0)
          + countRequested rest u := by
  unfold countRequested
  rw [List.filter_cons]
  cases h : (row.record.url == u && row.status == "Requested") with
  | false => simp [h]
  | true => simp [h]; omega

theorem countRequested_not_mem (loaded : List Row) (u : String)
    (h : u ∉ submittedLinksOf loaded) : countRequested loaded u = 0 := by
  induction loaded with
  | nil => simp [countRequested]
  | cons row rest ih =>
    rw [countRequested_cons]
    have hne : row.record.url ≠ u := by
      intro heq
      exact h (by simp [submittedLinksOf, heq])
    have hrest : u ∉ submittedLinksOf rest := by
      intro hmem
      exact h (by simp [submittedLinksOf] at hmem ⊢; exact Or.inr hmem)
    rw [ih hrest]
    simp [hne]

theorem countRequested_confirmed_zero (env : Env) (sub : List String)
    (links : List String) (u : String) (hu : u ∈ sub) :
    countRequested (confirmedRows env sub links) u = 0 := by
  induction links with
  | nil => simp [confirmedRows, countRequested]
  | cons l ls ih =>
    simp only [confirmedRows, List.filterMap_cons] at ih ⊢
    cases hr : confirmedRowOf env sub l with
    | none => exact ih
    | some row =>
      rw [countRequested_cons, ih]
      obtain ⟨hns, hurl, _⟩ := confirmedRowOf_some env sub l row hr
      have hne : row.record.url ≠ u := by
        rw [hurl]; intro heq; rw [heq] at hns; exact hns hu
      simp [hne]

theorem countRequested_confirmed_le (env : Env) (sub : List String)
    (links : List String) (u : String) :
    countRequested (confirmedRows env sub links) u ≤ links.count u := by
  induction links with
  | nil => simp [confirmedRows, countRequested]
  | cons l ls ih =>
    simp only [confirmedRows, List.filterMap_cons] at ih ⊢
    rw [List.count_cons]
    cases hr : confirmedRowOf env sub l with
    | none => exact le_trans ih (Nat.le_add_right _ _)
    | some row =>
      rw [countRequested_cons]
      obtain ⟨hns, hurl, _⟩ := confirmedRowOf_some env sub l row hr
      by_cases heq : l = u
      · have hlu : (l == u) = true := by simp [heq]
        rw [hlu]
        cases hb : (row.record.url == u && row.status == "Requested") <;>
          simp [hb] <;> omega
      · have hlu : (l == u) = false := by simp [heq]
        rw [hlu]
        have hne : (row.record.url == u) = false := by
          simp [hurl]
          exact heq
        simp [hne]
        omega

theorem runScript_fileRows (env : Env) (loaded : List Row)
    (links : List String) :
    (runScript env loaded links).1.fileRows
      = loaded ++ confirmedRows env (submittedLinksOf loaded) links := by
  rw [runScript_store]

theorem runScript_df (env : Env) (loaded : List Row) (links : List String) :
    (runScript env loaded links).1.df_existing
      = loaded ++ confirmedRows env (submittedLinksOf loaded) links := by
  rw [runScript_store]

/-! ### Concrete data for witnesses -/

/-- A well-formed catalog page used by the concrete witnesses. -/
def goodPage : Page :=
  { hbs_title := some ⟨" Case Title "⟩
    date_text := some ⟨"March 2015 (Revised June 2018)"⟩
    abstract := some ⟨" An abstract. "⟩
    author := some ⟨"Jane Roe"⟩
    citation := some ⟨"Roe, Jane. 1989 John Doe 321-456."⟩ }

/-- The record extraction produces for `goodPage` at url `u`. -/
def goodRecord (u : String) : CaseRecord :=
  { url := u
    case_number := "321-456"
    title := "Case Title"
    date := "March 2015"
    updated := "June 2018"
    abstract := "An abstract."
    main_author := "Jane Roe" }

/-- Environment where every fetch yields `goodPage` and every driven form
ends on a page showing the confirmation phrase. -/
def okEnv : Env :=
  { fetch := fun _ _ => Fetched.page goodPage
    drive := fun _ => DriveResult.ok confirmPhrase }

/-! ### Claims C10, C3, C1, C2: the store -/

/-- C10: the run starts from the store loaded at start-up, with the
in-memory DataFrame equal to the durable file; each loop iteration either
touches neither, or appends exactly one new row to the DataFrame —
preserving unchanged every loaded row and every row appended earlier —
and rewrites the durable file as exactly that whole DataFrame. -/
theorem C10_flush_is_full_rewrite (env : Env) (loaded : List Row)
    (links : List String) (sub : List String) (st : StoreState)
    (link : String) :
    runScript env loaded links
      = runBatch env (submittedLinksOf loaded) ⟨loaded, loaded⟩ links ∧
    (((processLink env sub st link).1.df_existing = st.df_existing ∧
      (processLink env sub st link).1.fileRows = st.fileRows) ∨
     (∃ row, (processLink env sub st link).1.df_existing
          = st.df_existing ++ [row] ∧
        (processLink env sub st link).1.fileRows
          = (processLink env sub st link).1.df_existing)) := by
  refine ⟨rfl, ?_⟩
  cases hr : confirmedRowOf env sub link with
  | none => exact Or.inl ⟨by simp [processLink_eq, stepStore, hr],
      by simp [processLink_eq, stepStore, hr]⟩
  | some row => exact Or.inr ⟨row, by simp [processLink_eq, stepStore, hr],
      by simp [processLink_eq, stepStore, hr]⟩

/-- C3: the durable file after a run — or after any prefix of a run, which
is what a crash mid-batch leaves behind — consists of the loaded rows plus
exactly the rows whose driven submission completed with the confirmation
phrase present (`confirmedRows` is `none` for skipped links, extraction
failures, driving exceptions, and unconfirmed completions); the file
always equals the in-memory DataFrame because every append is flushed
immediately; and a completed drive without the phrase leaves a warning
log in the trace while mutating nothing. -/
theorem C3_confirmation_gating (env : Env) (loaded : List Row)
    (links : List String) :
    (runScript env loaded links).1.fileRows
        = loaded ++ confirmedRows env (submittedLinksOf loaded) links ∧
    (runScript env loaded links).1.fileRows
        = (runScript env loaded links).1.df_existing ∧
    (∀ k, (runScript env loaded (List.take k links)).1.fileRows
        = loaded ++ confirmedRows env (submittedLinksOf loaded)
            (List.take k links)) ∧
    (∀ link md ps, link ∈ links → link ∉ submittedLinksOf loaded →
      (extract_case_data (env.fetch link) link 3 2).1 = some md →
      env.drive link = DriveResult.ok ps →
      containsSub confirmPhrase.data ps.data = false →
      OEvent.warn md.title ∈ (runScript env loaded links).2) := by
  refine ⟨runScript_fileRows env loaded links,
    by rw [runScript_fileRows, runScript_df],
    fun k => runScript_fileRows env loaded (List.take k links), ?_⟩
  intro link md ps hmem hns hx hd hc
  rw [runScript_events, List.mem_flatMap]
  refine ⟨link, hmem, ?_⟩
  simp [linkEvents, hns, hx, hd, hc]

/-- Witness for C3: with two links both confirming, the durable file holds
both rows; running only the first link (the state a crash between the two
successes leaves behind) holds exactly the first row. -/
theorem C3_confirmation_gating_witness :
    (runScript okEnv [] ["u1", "u2"]).1.fileRows
      = [⟨goodRecord "u1", "Requested"⟩, ⟨goodRecord "u2", "Requested"⟩] ∧
    (runScript okEnv [] (List.take 1 ["u1", "u2"])).1.fileRows
      = [⟨goodRecord "u1", "Requested"⟩] := by
  have h := C3_confirmation_gating okEnv [] ["u1", "u2"]
  constructor
  · rw [h.1]; decide
  · rw [h.2.2.1 1]; decide

/-- C1: a URL in the submitted set loaded at start-up is skipped: the run
never invokes the Extractor or the form driving for it, the durable
store's rows for that URL end exactly as loaded, and each of its
occurrences in the input produces a skip log. -/
theorem C1_already_submitted_skipped (env : Env) (loaded : List Row)
    (links : List String) (u : String) (hu : u ∈ submittedLinksOf loaded) :
    OEvent.extractCall u ∉ (runScript env loaded links).2 ∧
    OEvent.formDrive u ∉ (runScript env loaded links).2 ∧
    (runScript env loaded links).1.fileRows.filter
        (fun r => r.record.url == u)
      = loaded.filter (fun r => r.record.url == u) ∧
    (u ∈ links → OEvent.skip u ∈ (runScript env loaded links).2) := by
  refine ⟨?_, ?_, ?_, ?_⟩
  · rw [runScript_events]
    intro hmem
    rw [List.mem_flatMap] at hmem
    obtain ⟨l, hl, hev⟩ := hmem
    obtain ⟨rfl, hns⟩ := linkEvents_extractCall env _ l u hev
    exact hns hu
  · rw [runScript_events]
    intro hmem
    rw [List.mem_flatMap] at hmem
    obtain ⟨l, hl, hev⟩ := hmem
    obtain ⟨rfl, hns⟩ := linkEvents_formDrive env _ l u hev
    exact hns hu
  · rw [runScript_fileRows, List.filter_append]
    have hnil : (confirmedRows env (submittedLinksOf loaded) links).filter
        (fun r => r.record.url == u) = [] := by
      rw [List.filter_eq_nil_iff]
      intro row hrow
      rw [confirmedRows, List.mem_filterMap] at hrow
      obtain ⟨l, hl, hr⟩ := hrow
      obtain ⟨hns, hurl, _⟩ := confirmedRowOf_some env _ l row hr
      simp only [beq_iff_eq, hurl]
      intro heq
      rw [heq] at hns
      exact hns hu
    rw [hnil, List.append_nil]
  · intro hul
    rw [runScript_events, List.mem_flatMap]
    exact ⟨u, hul, by simp [linkEvents, hu]⟩

/-- Witness for C1: url `u1` loaded as already `Requested` is skipped while
`u2` is processed; the store's `u1` rows are untouched. -/
theorem C1_already_submitted_skipped_witness :
    OEvent.extractCall "u1"
        ∉ (runScript okEnv [⟨goodRecord "u1", "Requested"⟩] ["u1", "u2"]).2 ∧
    OEvent.formDrive "u1"
        ∉ (runScript okEnv [⟨goodRecord "u1", "Requested"⟩] ["u1", "u2"]).2 ∧
    (runScript okEnv [⟨goodRecord "u1", "Requested"⟩] ["u1", "u2"]).1.fileRows.filter
        (fun r => r.record.url == "u1")
      = [⟨goodRecord "u1", "Requested"⟩].filter (fun r => r.record.url == "u1") ∧
    ("u1" ∈ ["u1", "u2"] →
      OEvent.skip "u1"
        ∈ (runScript okEnv [⟨goodRecord "u1", "Requested"⟩] ["u1", "u2"]).2) :=
  C1_already_submitted_skipped okEnv [⟨goodRecord "u1", "Requested"⟩]
    ["u1", "u2"] "u1" (by decide)

/-- C2 counterexample: the submitted set is loaded once at start-up and
never updated during the run, so an input list that contains the same URL
twice submits it twice — the durable store then holds two
`Status = "Requested"` rows for that URL, violating the claimed
at-most-one invariant. -/
theorem C2_counterexample :
    ¬ countRequested (runScript okEnv [] ["u1", "u1"]).1.fileRows "u1" ≤ 1 := by
  decide

/-- C2 (amended): provided the run's input list contains no duplicate URLs,
at most one `Status = "Requested"` row exists per URL across the lifetime
of the store: URLs already in the store at start-up are skipped, and a URL
not yet in the store gains at most one row.  (Duplicates within a single
run's input are each submitted, since the in-memory submitted set is not
updated during the run.) -/
theorem C2_amended_unique_requested (env : Env) (loaded : List Row)
    (links : List String) (u : String) (hnd : links.Nodup)
    (hld : countRequested loaded u ≤ 1) :
    countRequested (runScript env loaded links).1.fileRows u ≤ 1 := by
  rw [runScript_fileRows, countRequested_append]
  by_cases hu : u ∈ submittedLinksOf loaded
  · rw [countRequested_confirmed_zero env _ links u hu]
    omega
  · rw [countRequested_not_mem loaded u hu]
    have h1 := countRequested_confirmed_le env (submittedLinksOf loaded) links u
    have h2 : links.count u ≤ 1 := List.nodup_iff_count_le_one.mp hnd u
    omega

/-- Witness for C2 (amended): a duplicate-free input over an empty store
ends with one `Requested` row for `u1`. -/
theorem C2_amended_unique_requested_witness :
    countRequested (runScript okEnv [] ["u1", "u2"]).1.fileRows "u1" ≤ 1 :=
  C2_amended_unique_requested okEnv [] ["u1", "u2"] "u1"
    (by decide) (by decide)

/-- Environment like `okEnv` except that driving the form for `u2`
raises an exception. -/
def midFailEnv : Env :=
  { fetch := fun _ _ => Fetched.page goodPage
    drive := fun l =>
      if l == "u2" then DriveResult.exn else DriveResult.ok confirmPhrase }

/-- C5: an exception while driving the form for one URL is caught and
logged with that URL's case number, and the batch continues in input
order: with three fresh URLs where the second's drive raises, the third is
still driven and the store ends with the first and third rows only; and
for every driven URL — whether the drive raises, confirms, or completes
unconfirmed — the iteration's last action is the reset of the driving
context to the top-level document. -/
theorem C5_interaction_error_isolated (env : Env) (loaded : List Row)
    (l1 l2 l3 : String) (md1 md2 md3 : CaseRecord) (ps1 ps3 : String)
    (h1s : l1 ∉ submittedLinksOf loaded)
    (h2s : l2 ∉ submittedLinksOf loaded)
    (h3s : l3 ∉ submittedLinksOf loaded)
    (he1 : (extract_case_data (env.fetch l1) l1 3 2).1 = some md1)
    (he2 : (extract_case_data (env.fetch l2) l2 3 2).1 = some md2)
    (he3 : (extract_case_data (env.fetch l3) l3 3 2).1 = some md3)
    (hd1 : env.drive l1 = DriveResult.ok ps1)
    (hc1 : containsSub confirmPhrase.data ps1.data = true)
    (hd2 : env.drive l2 = DriveResult.exn)
    (hd3 : env.drive l3 = DriveResult.ok ps3)
    (hc3 : containsSub confirmPhrase.data ps3.data = true) :
    (runScript env loaded [l1, l2, l3]).1.fileRows
      = loaded ++ [⟨md1, "Requested"⟩, ⟨md3, "Requested"⟩] ∧
    OEvent.errorLog md2.case_number ∈ (runScript env loaded [l1, l2, l3]).2 ∧
    OEvent.formDrive l3 ∈ (runScript env loaded [l1, l2, l3]).2 ∧
    (∀ st l md, l ∉ submittedLinksOf loaded →
      (extract_case_data (env.fetch l) l 3 2).1 = some md →
      ∃ pre, (processLink env (submittedLinksOf loaded) st l).2
        = pre ++ [OEvent.resetContext]) := by
  refine ⟨?_, ?_, ?_, ?_⟩
  · rw [runScript_fileRows]
    simp [confirmedRows, confirmedRowOf, h1s, h2s, h3s, he1, he2, he3,
      hd1, hd2, hd3, hc1, hc3]
  · rw [runScript_events, List.mem_flatMap]
    exact ⟨l2, by simp, by simp [linkEvents, h2s, he2, hd2]⟩
  · rw [runScript_events, List.mem_flatMap]
    exact ⟨l3, by simp, by simp [linkEvents, h3s, he3, hd3, hc3]⟩
  · intro st l md hns hx
    rw [processLink_eq]
    cases hd : env.drive l with
    | exn =>
      exact ⟨[OEvent.extractCall l, OEvent.formDrive l,
        OEvent.errorLog md.case_number], by simp [linkEvents, hns, hx, hd]⟩
    | ok ps =>
      cases hc : containsSub confirmPhrase.data ps.data with
      | true =>
        exact ⟨[OEvent.extractCall l, OEvent.formDrive l,
          OEvent.submitted md.title], by simp [linkEvents, hns, hx, hd, hc]⟩
      | false =>
        exact ⟨[OEvent.extractCall l, OEvent.formDrive l,
          OEvent.warn md.title], by simp [linkEvents, hns, hx, hd, hc]⟩

/-- Witness for C5: three fresh URLs where the drive of `u2` raises — the
store ends with the rows for `u1` and `u3` only, the error is logged with
`u2`'s case number, and `u3` is still driven. -/
theorem C5_interaction_error_isolated_witness :
    (runScript midFailEnv [] ["u1", "u2", "u3"]).1.fileRows
      = [⟨goodRecord "u1", "Requested"⟩, ⟨goodRecord "u3", "Requested"⟩] ∧
    OEvent.errorLog (goodRecord "u2").case_number
      ∈ (runScript midFailEnv [] ["u1", "u2", "u3"]).2 ∧
    OEvent.formDrive "u3" ∈ (runScript midFailEnv [] ["u1", "u2", "u3"]).2 := by
  have h := C5_interaction_error_isolated midFailEnv [] "u1" "u2" "u3"
    (goodRecord "u1") (goodRecord "u2") (goodRecord "u3")
    confirmPhrase confirmPhrase
    (by decide) (by decide) (by decide)
    (by decide) (by decide) (by decide)
    (by decide) (by decide) (by decide) (by decide) (by decide)
  exact ⟨h.1, h.2.1, h.2.2.1⟩

/-! ### Claim C8: the title invariant -/

theorem stripChars_ne_nil (s : List Char) (c : Char) (hc : c ∈ s)
    (hns : isPySpace c = false) : stripChars s ≠ [] := by
  intro h
  unfold stripChars at h
  rw [List.reverse_eq_nil_iff, List.dropWhile_eq_nil_iff] at h
  have hcd : c ∈ s.dropWhile isPySpace := by
    have hsplit := List.takeWhile_append_dropWhile (p := isPySpace) (l := s)
    rw [← hsplit] at hc
    rcases List.mem_append.mp hc with h1 | h2
    · have := List.mem_takeWhile_imp h1
      rw [hns] at this
      exact absurd this (by simp)
    · exact h2
  have := h c (List.mem_reverse.mpr hcd)
  rw [hns] at this
  exact absurd this (by simp)

theorem pyStrip_ne_empty (s : String) (c : Char) (hc : c ∈ s.data)
    (hns : isPySpace c = false) : pyStrip s ≠ "" := by
  unfold pyStrip
  intro h
  have hd : stripChars s.data = [] := by
    have := congrArg String.data h
    simpa using this
  exact stripChars_ne_nil s.data c hc hns hd

/-- A page whose title element exists but whose text is a single space:
`if not hbs_title` does not fire, yet stripping yields an empty title. -/
def wsTitlePage : Page :=
  { hbs_title := some ⟨" "⟩
    date_text := none
    abstract := none
    author := none
    citation := none }

/-- C8 counterexample: the Extractor produces a record whose `title` field
is the empty string — the title check only detects a missing element, not
one whose text strips to nothing, so "no record is ever produced whose
title field is the empty string" fails on this page. -/
theorem C8_counterexample :
    ((extract_case_data (fun _ => Fetched.page wsTitlePage) "u" 3 2).1.map
      (fun md => md.title)) = some "" := by
  decide

/-- C8 (amended): a record exists only when `select_one` found a title
element — that is the whole check, since bs4 tags are truthy whatever
their contents — and its `title` is the element's stripped text, non-empty
whenever the element's text has any non-whitespace character (a title
element whose text strips to nothing slips through and yields an empty
title); a missing title element counts as a failed load, so an extraction
seeing only title-less pages (or exceptions) terminally fails with no
record. -/
theorem C8_amended_title_nonempty (url : String) (soup : Page)
    (md : CaseRecord) (fetch : Nat → Fetched) (mr d : Nat)
    (h : parsePage url soup = some md) :
    soup.hbs_title ≠ none ∧
    md.title = pyStrip (textOf soup.hbs_title) ∧
    ((∃ c ∈ (textOf soup.hbs_title).data, isPySpace c = false) →
      md.title ≠ "") ∧
    ((∀ n, match fetch n with
        | Fetched.exn => True
        | Fetched.page p => p.hbs_title = none) →
      (extract_case_data fetch url mr d).1 = none) := by
  have ht : soup.hbs_title ≠ none := by
    intro hnone
    have hf : truthy soup.hbs_title = false := by rw [hnone]; rfl
    rw [parsePage_none url soup hf] at h
    exact absurd h (by simp)
  have htitle := parsePage_title url soup md h
  refine ⟨ht, htitle, ?_, ?_⟩
  · rintro ⟨c, hc, hns⟩
    rw [htitle]
    exact pyStrip_ne_empty (textOf soup.hbs_title) c hc hns
  · intro hfp
    have hall : ∀ n, 1 ≤ n → n < 1 + mr → attemptFails fetch url n = true := by
      intro n _ _
      cases hfn : fetch n with
      | exn => simp [attemptFails, hfn]
      | page p =>
        have hp := hfp n
        rw [hfn] at hp
        have hf : truthy p.hbs_title = false := by rw [hp]; rfl
        simp [attemptFails, hfn, parsePage_none url p hf]
    exact (extractLoop_allfail fetch url d mr 1 hall).1

/-- Witness for C8 (amended) at `goodPage` (a record with title
"Case Title") and an always-raising fetch oracle. -/
theorem C8_amended_title_nonempty_witness :
    goodPage.hbs_title ≠ none ∧
    (goodRecord "u").title = pyStrip (textOf goodPage.hbs_title) ∧
    ((∃ c ∈ (textOf goodPage.hbs_title).data, isPySpace c = false) →
      (goodRecord "u").title ≠ "") ∧
    ((∀ n, match (fun _ => Fetched.exn : Nat → Fetched) n with
        | Fetched.exn => True
        | Fetched.page p => p.hbs_title = none) →
      (extract_case_data (fun _ => Fetched.exn) "u" 3 2).1 = none) :=
  C8_amended_title_nonempty "u" goodPage (goodRecord "u")
    (fun _ => Fetched.exn) 3 2 (by decide)

/-! ### Claim C6: the case-number regex -/

/-- The leading `\b` condition of the scan, given the previous character. -/
def prevOk : Option Char → Bool
  | none => true
  | some c => !isWordChar c

/-- The scan's match condition at index `i`, with `prev` the character
just before the scanned suffix. -/
def scanMatchAt (prev : Option Char) (s : List Char) (i : Nat) : Bool :=
  (if i == 0 then prevOk prev else !wordAt s (i - 1))
    && (caseNumAt (s.drop i)).isSome

theorem caseNumAt_take : ∀ (t m : List Char), caseNumAt t = some m → m = t.take 7
  | d1 :: d2 :: d3 :: hy :: d4 :: d5 :: d6 :: rest, m, h => by
    simp only [caseNumAt] at h
    split at h
    · have hm := Option.some.inj h
      rw [← hm]
      rfl
    · exact absurd h (by simp)
  | [], m, h => by simp [caseNumAt] at h
  | [d1], m, h => by simp [caseNumAt] at h
  | [d1, d2], m, h => by simp [caseNumAt] at h
  | [d1, d2, d3], m, h => by simp [caseNumAt] at h
  | [d1, d2, d3, d4], m, h => by simp [caseNumAt] at h
  | [d1, d2, d3, d4, d5], m, h => by simp [caseNumAt] at h
  | [d1, d2, d3, d4, d5, d6], m, h => by simp [caseNumAt] at h

theorem searchCaseNum_nil (prev : Option Char) : searchCaseNum prev [] = none :=
  rfl

theorem searchCaseNum_cons (prev : Option Char) (c : Char) (rest : List Char) :
    searchCaseNum prev (c :: rest)
      = match (if (match prev with
                   | none => true
                   | some p => !isWordChar p) then
                 caseNumAt (c :: rest)
               else none) with
        | some m => some m
        | none => searchCaseNum (some c) rest :=
  rfl

theorem scanMatchAt_none (s : List Char) (i : Nat) :
    scanMatchAt none s i = caseMatchAt s i := by
  cases i <;> simp [scanMatchAt, caseMatchAt, prevOk]

theorem scanMatchAt_succ (prev : Option Char) (c : Char) (rest : List Char)
    (i : Nat) :
    scanMatchAt prev (c :: rest) (i + 1) = scanMatchAt (some c) rest i := by
  cases i with
  | zero => simp [scanMatchAt, wordAt, prevOk]
  | succ j => simp [scanMatchAt, wordAt]

/-- The scanning search returns the take-7 slice at the first index whose
whole-word match condition holds, and `none` when no index matches. -/
theorem searchCaseNum_eq_find : ∀ (s : List Char) (prev : Option Char),
    searchCaseNum prev s
      = (List.find? (scanMatchAt prev s) (List.range s.length)).map
          (fun i => (s.drop i).take 7)
  | [], prev => by simp [searchCaseNum_nil]
  | c :: rest, prev => by
    have ih := searchCaseNum_eq_find rest (some c)
    have hpm : (match prev with
        | none => true
        | some p => !isWordChar p) = prevOk prev := by
      cases prev <;> rfl
    rw [List.length_cons, List.range_succ_eq_map, List.find?_cons]
    cases h0 : scanMatchAt prev (c :: rest) 0 with
    | true =>
      have h0' : prevOk prev = true ∧ (caseNumAt (c :: rest)).isSome = true := by
        have h1 := h0
        simp [scanMatchAt] at h1
        exact h1
      obtain ⟨m, hm⟩ := Option.isSome_iff_exists.mp h0'.2
      have hL : searchCaseNum prev (c :: rest) = some m := by
        rw [searchCaseNum_cons, hpm, h0'.1]
        simp [hm]
      rw [hL, caseNumAt_take (c :: rest) m hm]
      simp
    | false =>
      have hL : searchCaseNum prev (c :: rest) = searchCaseNum (some c) rest := by
        rw [searchCaseNum_cons, hpm]
        cases hp : prevOk prev with
        | false => simp
        | true =>
          have hc0 : caseNumAt (c :: rest) = none := by
            by_contra hne
            have hs : (caseNumAt (c :: rest)).isSome = true :=
              Option.ne_none_iff_isSome.mp hne
            have hT : scanMatchAt prev (c :: rest) 0 = true := by
              simp [scanMatchAt, hp, hs]
            rw [hT] at h0
            exact absurd h0 (by simp)
          simp [hc0]
      rw [hL, ih]
      simp only []
      rw [List.find?_map Nat.succ (List.range rest.length)]
      rw [Option.map_map]
      have hcomp : (scanMatchAt prev (c :: rest)) ∘ Nat.succ
          = scanMatchAt (some c) rest :=
        funext (fun i => scanMatchAt_succ prev c rest i)
      rw [hcomp]
      rfl

/-- The code's `case_number` computation equals the spec-side "first
whole-word `\d{3}-\d{3}` match by index" definition, on every string. -/
theorem caseNumberOf_eq_spec (s : String) :
    caseNumberOf s = specCaseNumber s.data := by
  unfold caseNumberOf specCaseNumber
  rw [searchCaseNum_eq_find]
  have hsm : scanMatchAt none s.data = caseMatchAt s.data :=
    funext (scanMatchAt_none s.data)
  rw [hsm]
  cases List.find? (caseMatchAt s.data) (List.range s.data.length) <;> simp

theorem parsePage_caseNumber (url : String) (soup : Page) (md : CaseRecord)
    (h : parsePage url soup = some md) :
    md.case_number
      = if truthy soup.citation then caseNumberOf (textOf soup.citation)
        else "" := by
  cases ht : truthy soup.hbs_title with
  | false => rw [parsePage_none url soup ht] at h; exact absurd h (by simp)
  | true =>
    rw [parsePage_some url soup ht] at h
    simp only [Option.some.injEq] at h
    rw [← h]

/-- C6: for every produced record, `caseNumber` is the text of the first
(leftmost) whole-word match of `\d{3}-\d{3}` inside the citation text, and
the empty string when there is no match or the citation element is absent;
in particular the spec's example citation yields "321-456". -/
theorem C6_case_number_spec (url : String) (soup : Page) (md : CaseRecord)
    (h : parsePage url soup = some md) :
    md.case_number
      = (if truthy soup.citation then
          specCaseNumber (textOf soup.citation).data
        else "") ∧
    caseNumberOf "In-text citation 1989 John Doe 321-456 something"
      = "321-456" := by
  refine ⟨?_, by decide⟩
  rw [parsePage_caseNumber url soup md h]
  cases hc : truthy soup.citation <;> simp [hc, caseNumberOf_eq_spec]

/-- Witness for C6 at `goodPage`. -/
theorem C6_case_number_spec_witness :
    (goodRecord "u").case_number
      = (if truthy goodPage.citation then
          specCaseNumber (textOf goodPage.citation).data
        else "") ∧
    caseNumberOf "In-text citation 1989 John Doe 321-456 something"
      = "321-456" :=
  C6_case_number_spec "u" goodPage (goodRecord "u") (by decide)

/-! ### Claim C7: the date regexes -/

theorem listStartsWith_iff : ∀ (p s : List Char),
    listStartsWith p s = true ↔ ∃ t, s = p ++ t
  | [], s => by simp [listStartsWith]
  | x :: p, [] => by
    simp [listStartsWith]
  | x :: p, c :: s => by
    have ih := listStartsWith_iff p s
    simp only [listStartsWith, Bool.and_eq_true, beq_iff_eq]
    constructor
    · rintro ⟨rfl, hp⟩
      obtain ⟨t, rfl⟩ := ih.mp hp
      exact ⟨t, rfl⟩
    · rintro ⟨t, ht⟩
      rw [List.cons_append] at ht
      injection ht with h1 h2
      exact ⟨h1.symm, ih.mpr ⟨t, h2⟩⟩

theorem takeWhile_alpha_space : ∀ (a t : List Char),
    a.all Char.isAlpha = true →
    (a ++ ' ' :: t).takeWhile Char.isAlpha = a ∧
    (a ++ ' ' :: t).dropWhile Char.isAlpha = ' ' :: t
  | [], t, _ => by
    have hsp : Char.isAlpha ' ' = false := by decide
    simp [List.takeWhile, List.dropWhile, hsp]
  | x :: xs, t, ha => by
    rw [List.all_cons, Bool.and_eq_true] at ha
    have ih := takeWhile_alpha_space xs t ha.2
    simp [List.cons_append, List.takeWhile_cons, List.dropWhile_cons,
      ha.1, ih.1, ih.2]

theorem all_takeWhile (p : Char → Bool) (s : List Char) :
    (s.takeWhile p).all p = true := by
  rw [List.all_eq_true]
  intro x hx
  exact List.mem_takeWhile_imp hx

theorem matchOriginal_of_decomp (a y rest : List Char)
    (ha : alphaWord a = true) (hy : yearDigits y = true) :
    matchOriginal (a ++ ' ' :: (y ++ rest)) = some (a ++ ' ' :: y) := by
  unfold alphaWord at ha
  rw [Bool.and_eq_true] at ha
  obtain ⟨hane, hall⟩ := ha
  unfold yearDigits at hy
  rw [Bool.and_eq_true] at hy
  obtain ⟨hylen, hydig⟩ := hy
  have hlen : y.length = 4 := by simpa using hylen
  rcases y with _ | ⟨y1, y⟩; · simp at hlen
  rcases y with _ | ⟨y2, y⟩; · simp at hlen
  rcases y with _ | ⟨y3, y⟩; · simp at hlen
  rcases y with _ | ⟨y4, y⟩; · simp at hlen
  have hynil : y = [] := by
    simp only [List.length_cons] at hlen
    exact List.length_eq_zero.mp (by omega)
  subst hynil
  rcases a with _ | ⟨a1, as⟩
  · simp at hane
  · have htw := takeWhile_alpha_space (a1 :: as) ([y1, y2, y3, y4] ++ rest) hall
    simp at hydig
    obtain ⟨h1, h2, h3, h4⟩ := hydig
    unfold matchOriginal
    rw [htw.1, htw.2]
    simp [List.cons_append, h1, h2, h3, h4]

theorem matchOriginal_decomp (s r : List Char) (h : matchOriginal s = some r) :
    ∃ a y rest, alphaWord a = true ∧ yearDigits y = true ∧
      s = a ++ ' ' :: (y ++ rest) ∧ r = a ++ ' ' :: y := by
  unfold matchOriginal at h
  cases hal : s.takeWhile Char.isAlpha with
  | nil => rw [hal] at h; simp at h
  | cons a1 as =>
    rw [hal] at h
    cases hdr : s.dropWhile Char.isAlpha with
    | nil => rw [hdr] at h; simp at h
    | cons sp t =>
      rw [hdr] at h
      rcases t with _ | ⟨c1, t⟩; · simp at h
      rcases t with _ | ⟨c2, t⟩; · simp at h
      rcases t with _ | ⟨c3, t⟩; · simp at h
      rcases t with _ | ⟨c4, t⟩; · simp at h
      simp only [] at h
      split at h
      case isTrue hcond =>
        simp only [Bool.and_eq_true, beq_iff_eq] at hcond
        obtain ⟨⟨⟨⟨hsp, h1⟩, h2⟩, h3⟩, h4⟩ := hcond
        subst hsp
        refine ⟨a1 :: as, [c1, c2, c3, c4], t, ?_, ?_, ?_, ?_⟩
        · unfold alphaWord
          rw [Bool.and_eq_true]
          refine ⟨by simp, ?_⟩
          rw [← hal]
          exact all_takeWhile Char.isAlpha s
        · unfold yearDigits
          simp [h1, h2, h3, h4]
        · rw [← List.takeWhile_append_dropWhile (p := Char.isAlpha) (l := s),
            hal, hdr]
          simp [List.cons_append]
        · have hr := Option.some.inj h
          rw [← hr]
      case isFalse => exact absurd h (by simp)

theorem listStartsWith_append_self (p t : List Char) :
    listStartsWith p (p ++ t) = true :=
  (listStartsWith_iff p (p ++ t)).mpr ⟨t, rfl⟩

theorem revisedAt_of_decomp (a y rest : List Char)
    (ha : alphaWord a = true) (hy : yearDigits y = true) :
    revisedAt ("(Revised ".data ++ (a ++ ' ' :: (y ++ ')' :: rest)))
      = some (a ++ ' ' :: y) := by
  unfold alphaWord at ha
  rw [Bool.and_eq_true] at ha
  obtain ⟨hane, hall⟩ := ha
  unfold yearDigits at hy
  rw [Bool.and_eq_true] at hy
  obtain ⟨hylen, hydig⟩ := hy
  have hlen : y.length = 4 := by simpa using hylen
  rcases y with _ | ⟨y1, y⟩; · simp at hlen
  rcases y with _ | ⟨y2, y⟩; · simp at hlen
  rcases y with _ | ⟨y3, y⟩; · simp at hlen
  rcases y with _ | ⟨y4, y⟩; · simp at hlen
  have hynil : y = [] := by
    simp only [List.length_cons] at hlen
    exact List.length_eq_zero.mp (by omega)
  subst hynil
  rcases a with _ | ⟨a1, as⟩
  · simp at hane
  · simp at hydig
    obtain ⟨h1, h2, h3, h4⟩ := hydig
    unfold revisedAt
    rw [listStartsWith_append_self]
    have h9 : ("(Revised ".data).length = 9 := rfl
    rw [← h9, List.drop_left]
    have htw := takeWhile_alpha_space (a1 :: as)
      ([y1, y2, y3, y4] ++ ')' :: rest) hall
    rw [htw.1, htw.2]
    simp [List.cons_append, h1, h2, h3, h4]

theorem revisedAt_decomp (s r : List Char) (h : revisedAt s = some r) :
    ∃ a y rest, alphaWord a = true ∧ yearDigits y = true ∧
      s = "(Revised ".data ++ (a ++ ' ' :: (y ++ ')' :: rest)) ∧
      r = a ++ ' ' :: y := by
  unfold revisedAt at h
  split at h
  case isFalse => exact absurd h (by simp)
  case isTrue hsw =>
    obtain ⟨t, hst⟩ := (listStartsWith_iff _ _).mp hsw
    subst hst
    have h9 : ("(Revised ".data).length = 9 := rfl
    rw [← h9, List.drop_left] at h
    cases hal : t.takeWhile Char.isAlpha with
    | nil => rw [hal] at h; simp at h
    | cons a1 as =>
      rw [hal] at h
      cases hdr : t.dropWhile Char.isAlpha with
      | nil => rw [hdr] at h; simp at h
      | cons sp u =>
        rw [hdr] at h
        rcases u with _ | ⟨c1, u⟩; · simp at h
        rcases u with _ | ⟨c2, u⟩; · simp at h
        rcases u with _ | ⟨c3, u⟩; · simp at h
        rcases u with _ | ⟨c4, u⟩; · simp at h
        rcases u with _ | ⟨cp, u⟩; · simp at h
        simp only [] at h
        split at h
        case isTrue hcond =>
          simp only [Bool.and_eq_true, beq_iff_eq] at hcond
          obtain ⟨⟨⟨⟨⟨hsp, h1⟩, h2⟩, h3⟩, h4⟩, hcp⟩ := hcond
          subst hsp
          subst hcp
          refine ⟨a1 :: as, [c1, c2, c3, c4], u, ?_, ?_, ?_, ?_⟩
          · unfold alphaWord
            rw [Bool.and_eq_true]
            refine ⟨by simp, ?_⟩
            rw [← hal]
            exact all_takeWhile Char.isAlpha t
          · unfold yearDigits
            simp [h1, h2, h3, h4]
          · have ht : t = (a1 :: as) ++ ' ' :: c1 :: c2 :: c3 :: c4 :: ')' :: u := by
              conv_lhs => rw [← List.takeWhile_append_dropWhile
                (p := Char.isAlpha) (l := t)]
              rw [hal, hdr]
            rw [ht]
            simp [List.cons_append]
          · exact (Option.some.inj h).symm
        case isFalse => exact absurd h (by simp)

theorem searchRevised_nil : searchRevised [] = none :=
  rfl

theorem searchRevised_cons (c : Char) (rest : List Char) :
    searchRevised (c :: rest)
      = match revisedAt (c :: rest) with
        | some m => some m
        | none => searchRevised rest :=
  rfl

theorem revisedAt_nil : revisedAt [] = none :=
  rfl

theorem searchRevised_head (s m : List Char) (h : revisedAt s = some m) :
    searchRevised s = some m := by
  cases s with
  | nil => rw [revisedAt_nil] at h; exact absurd h (by simp)
  | cons c t => rw [searchRevised_cons, h]

theorem searchRevised_ne_none_of_decomp :
    ∀ (pre a y rest : List Char), alphaWord a = true → yearDigits y = true →
      searchRevised
          (pre ++ ("(Revised ".data ++ (a ++ ' ' :: (y ++ ')' :: rest))))
        ≠ none
  | [], a, y, rest, ha, hy => by
    rw [List.nil_append,
      searchRevised_head _ _ (revisedAt_of_decomp a y rest ha hy)]
    simp
  | c :: pre, a, y, rest, ha, hy => by
    have ih := searchRevised_ne_none_of_decomp pre a y rest ha hy
    rw [List.cons_append, searchRevised_cons]
    cases hrv : revisedAt
        (c :: (pre ++ ("(Revised ".data ++ (a ++ ' ' :: (y ++ ')' :: rest))))) with
    | some m => simp
    | none => simpa using ih

theorem searchRevised_decomp : ∀ (s r : List Char), searchRevised s = some r →
    ∃ pre a y rest, alphaWord a = true ∧ yearDigits y = true ∧
      s = pre ++ ("(Revised ".data ++ (a ++ ' ' :: (y ++ ')' :: rest))) ∧
      r = a ++ ' ' :: y
  | [], r, h => by rw [searchRevised_nil] at h; exact absurd h (by simp)
  | c :: t, r, h => by
    rw [searchRevised_cons] at h
    cases hrv : revisedAt (c :: t) with
    | some m =>
      rw [hrv] at h
      have hm : m = r := Option.some.inj h
      obtain ⟨a, y, rest, ha, hy, hs, hr⟩ := revisedAt_decomp (c :: t) m hrv
      exact ⟨[], a, y, rest, ha, hy, by simpa using hs, by rw [← hm]; exact hr⟩
    | none =>
      rw [hrv] at h
      obtain ⟨pre, a, y, rest, ha, hy, hs, hr⟩ := searchRevised_decomp t r h
      exact ⟨c :: pre, a, y, rest, ha, hy, by simp [hs], hr⟩

theorem parsePage_dates (url : String) (soup : Page) (md : CaseRecord)
    (h : parsePage url soup = some md) :
    md.date = (if truthy soup.date_text then
        groupStr (matchOriginal (pyStrip (textOf soup.date_text)).data)
      else "") ∧
    md.updated = (if truthy soup.date_text then
        groupStr (searchRevised (pyStrip (textOf soup.date_text)).data)
      else "") := by
  cases ht : truthy soup.hbs_title with
  | false => rw [parsePage_none url soup ht] at h; exact absurd h (by simp)
  | true =>
    rw [parsePage_some url soup ht] at h
    simp only [Option.some.injEq] at h
    refine ⟨?_, ?_⟩ <;> rw [← h]

/-- A page whose (stripped) date text is "Foo 2015": the leading word is
not a month name, but the code's `[A-Za-z]+ \d{4}` pattern accepts it. -/
def fooDatePage : Page :=
  { hbs_title := some ⟨"T"⟩
    date_text := some ⟨"Foo 2015"⟩
    abstract := none
    author := none
    citation := none }

/-- C7 counterexample: on date text "Foo 2015" the produced record carries
`originalDate = "Foo 2015"`, while the claim's
`<Month-name> <4-digit-year>` leading pattern matches nothing there — the
code anchors `[A-Za-z]+ \d{4}`, any alphabetic word, not a month name. -/
theorem C7_counterexample :
    ((parsePage "u" fooDatePage).map (fun md => md.date) = some "Foo 2015") ∧
    specOriginalDate (pyStrip (textOf fooDatePage.date_text)).data = "" ∧
    ¬ ((parsePage "u" fooDatePage).map (fun md => md.date)
        = some (specOriginalDate (pyStrip (textOf fooDatePage.date_text)).data)) := by
  exact ⟨by decide, by decide, by decide⟩

/-- C7 (amended): `originalDate` is the leading
`<alphabetic-word> <4-digit-year>` match at the start of the (stripped)
date text, empty when there is none, and `revisedDate` is the word/year
inside a substring `(Revised <alphabetic-word> <4-digit-year>)` anywhere
in the date text, empty when absent: the conjuncts give the record fields,
the exact value on every decomposable input, emptiness exactly on
undecomposable input, soundness and completeness of the revised search,
and the spec's example. -/
theorem C7_amended_dates (url : String) (soup : Page) (md : CaseRecord)
    (h : parsePage url soup = some md) :
    (md.date = (if truthy soup.date_text then
        groupStr (matchOriginal (pyStrip (textOf soup.date_text)).data)
      else "")) ∧
    (md.updated = (if truthy soup.date_text then
        groupStr (searchRevised (pyStrip (textOf soup.date_text)).data)
      else "")) ∧
    (∀ a y rest, alphaWord a = true → yearDigits y = true →
      matchOriginal (a ++ ' ' :: (y ++ rest)) = some (a ++ ' ' :: y)) ∧
    (∀ s : List Char, matchOriginal s = none ↔
      ¬ ∃ a y rest, alphaWord a = true ∧ yearDigits y = true ∧
        s = a ++ ' ' :: (y ++ rest)) ∧
    (∀ s r : List Char, searchRevised s = some r →
      ∃ pre a y rest, alphaWord a = true ∧ yearDigits y = true ∧
        s = pre ++ ("(Revised ".data ++ (a ++ ' ' :: (y ++ ')' :: rest))) ∧
        r = a ++ ' ' :: y) ∧
    (∀ pre a y rest : List Char, alphaWord a = true → yearDigits y = true →
      searchRevised
          (pre ++ ("(Revised ".data ++ (a ++ ' ' :: (y ++ ')' :: rest))))
        ≠ none) ∧
    groupStr (matchOriginal "March 2015 (Revised June 2018)".data)
      = "March 2015" ∧
    groupStr (searchRevised "March 2015 (Revised June 2018)".data)
      = "June 2018" := by
  refine ⟨(parsePage_dates url soup md h).1, (parsePage_dates url soup md h).2,
    fun a y rest ha hy => matchOriginal_of_decomp a y rest ha hy,
    ?_, searchRevised_decomp, searchRevised_ne_none_of_decomp,
    by decide, by decide⟩
  intro s
  constructor
  · intro hn
    rintro ⟨a, y, rest, ha, hy, rfl⟩
    rw [matchOriginal_of_decomp a y rest ha hy] at hn
    exact absurd hn (by simp)
  · intro hne
    by_contra hsome
    obtain ⟨r, hr⟩ := Option.ne_none_iff_exists'.mp hsome
    obtain ⟨a, y, rest, ha, hy, hs, _⟩ := matchOriginal_decomp s r hr
    exact hne ⟨a, y, rest, ha, hy, hs⟩

/-- Witness for C7 (amended): at `goodPage` (date text
"March 2015 (Revised June 2018)") the record carries the example values,
and concrete decompositions behave as characterized. -/
theorem C7_amended_dates_witness :
    (goodRecord "u").date = "March 2015" ∧
    (goodRecord "u").updated = "June 2018" ∧
    matchOriginal ("Foo".data ++ ' ' :: ("2015".data ++ []))
      = some ("Foo".data ++ ' ' :: "2015".data) ∧
    searchRevised ("March 2015 ".data
        ++ ("(Revised ".data ++ ("June".data ++ ' ' :: ("2018".data ++ ')' :: []))))
      ≠ none := by
  have h := C7_amended_dates "u" goodPage (goodRecord "u") (by decide)
  refine ⟨by rw [h.1]; decide, by rw [h.2.1]; decide, ?_, ?_⟩
  · exact h.2.2.1 "Foo".data "2015".data [] (by decide) (by decide)
  · exact h.2.2.2.2.2.1 "March 2015 ".data "June".data "2018".data []
      (by decide) (by decide)

end HbsRun
